import Mathlib

/-!
Shallow embedding of the Wordle game engine from `src/App.tsx` and
`src/types.ts`, together with proofs of the specified properties.

Modelling conventions:
* A JS string holding one tile character (either the empty string `''` or a
  single letter) is modelled as `Option Char` (`none` = `''`).
* The React state hooks of `App.tsx` (`secretWord`, `grid`, `currentRow`,
  `currentCol`, `gameStatus`, `letterStates`) are bundled into one record
  `GameState`.  The transient UI fields `shakeRow` / `message` are modelled as
  an emitted `Signal` value instead of state, following the spec's separation
  of GameState from transient signals.
* The async `handleEnter` is split at its `await validateWordExistence`
  suspension point: `submitAction` is the synchronous prefix, `submitStep2`
  the continuation applied once validation resolves with a boolean.
-/

set_option maxHeartbeats 1000000
set_option linter.unnecessarySeqFocus false
set_option linter.unusedVariables false

namespace Wordle

/-- `LetterState` from `src/types.ts`. -/
inductive LetterState where
  | INITIAL
  | CORRECT
  | PRESENT
  | ABSENT
deriving DecidableEq, Repr

/-- `TileData` from `src/types.ts`; `char` is `''` (here `none`) or a letter. -/
structure TileData where
  char : Option Char
  state : LetterState
deriving DecidableEq, Repr

/-- `GridData` from `src/types.ts`. -/
abbrev GridData := List (List TileData)

/-- `GameStatus` from `src/types.ts`. -/
inductive GameStatus where
  | LOADING
  | PLAYING
  | VALIDATING
  | WON
  | LOST
deriving DecidableEq, Repr

/-- `const MAX_GUESSES = 5` in `src/App.tsx`. -/
def MAX_GUESSES : Nat := 5

/-- `const WORD_LENGTH = 5` in `src/App.tsx`. -/
def WORD_LENGTH : Nat := 5

/-!  ### Guess evaluation (the two passes inside `handleEnter`)  -/

/-- First pass of `handleEnter`: for each position, if the guessed character
equals the secret character, mark the tile CORRECT and clear the secret slot
to the sentinel (`secretArr[i] = ''`, here `none`).  Returns the row of
`(char, state)` tiles after pass 1 together with the mutated `secretArr`.
Tiles not matched keep the state they were typed with (always INITIAL). -/
def pass1 : List Char → List Char → List (Char × LetterState) × List (Option Char)
  | g :: gs, s :: ss =>
    let r := pass1 gs ss
    if g = s then ((g, LetterState.CORRECT) :: r.1, none :: r.2)
    else ((g, LetterState.INITIAL) :: r.1, some s :: r.2)
  | _, _ => ([], [])

/-- `secretArr.indexOf(char)` followed by `secretArr[indexInSecret] = ''`:
clear the first occurrence of `c` in the remaining secret, or `none` if `c`
does not occur (`indexOf` returned `-1`). -/
def clearFirst : List (Option Char) → Char → Option (List (Option Char))
  | [], _ => none
  | x :: xs, c =>
    if x = some c then some (none :: xs)
    else (clearFirst xs c).map (fun ys => x :: ys)

/-- Second pass of `handleEnter`: every tile not already CORRECT becomes
PRESENT if its character still occurs in the unconsumed secret (consuming that
occurrence), else ABSENT. -/
def pass2 : List (Char × LetterState) → List (Option Char) → List (Char × LetterState)
  | [], _ => []
  | (c, st) :: ts, rem =>
    if st = LetterState.CORRECT then (c, st) :: pass2 ts rem
    else
      match clearFirst rem c with
      | some rem2 => (c, LetterState.PRESENT) :: pass2 ts rem2
      | none => (c, LetterState.ABSENT) :: pass2 ts rem

/-- The complete guess-evaluation algorithm of `handleEnter` as a pure
function of the guess and the secret word, returning for each position the
guessed character and its resulting state. -/
def evaluate (guess secret : List Char) : List (Char × LetterState) :=
  let r := pass1 guess secret
  pass2 r.1 r.2

/-!  ### Counting helpers for the duplicate-letter invariant  -/

/-- Number of occurrences of letter `l` in a word. -/
def countChar (l : Char) (s : List Char) : Nat :=
  (s.filter (fun c => c = l)).length

/-- Number of unconsumed occurrences of letter `l` in the scratch secret. -/
def countSome (l : Char) (rem : List (Option Char)) : Nat :=
  (rem.filter (fun x => x = some l)).length

/-- Number of tiles carrying letter `l` marked CORRECT. -/
def countCorrect (l : Char) (ts : List (Char × LetterState)) : Nat :=
  (ts.filter (fun p => p.1 = l ∧ p.2 = LetterState.CORRECT)).length

/-- Number of tiles carrying letter `l` marked PRESENT or CORRECT. -/
def countHit (l : Char) (ts : List (Char × LetterState)) : Nat :=
  (ts.filter (fun p => p.1 = l ∧ (p.2 = LetterState.PRESENT ∨ p.2 = LetterState.CORRECT))).length

/-!  ### Game state  -/

/-- The React state of `App.tsx` relevant to the engine (the spec's
GameState aggregate).  `letterStates` is the `Record<string, LetterState>`
keyboard-hint map, modelled as an association list with unique keys in
insertion order, exactly the observable behaviour of a JS object. -/
structure GameState where
  secretWord : List Char
  grid : GridData
  currentRow : Nat
  currentCol : Nat
  gameStatus : GameStatus
  letterStates : List (Char × LetterState)
deriving DecidableEq, Repr

/-- Transient UI signals (`setShakeRow` / `setMessage` / confetti), which the
spec separates from GameState. -/
inductive Signal where
  | tooShort
  | invalidWord
  | winMsg
  | revealSecret (w : List Char)
deriving DecidableEq, Repr

/-- An empty row of `WORD_LENGTH` tiles, as built in `initGame`. -/
def emptyRow : List TileData :=
  List.replicate WORD_LENGTH { char := none, state := LetterState.INITIAL }

/-- The empty `MAX_GUESSES × WORD_LENGTH` grid built in `initGame`. -/
def emptyGrid : GridData := List.replicate MAX_GUESSES emptyRow

/-- `grid[currentRow].map(t => t.char).join('')` followed by `split('')`:
for tile characters that are `''` or a single letter, joining and resplitting
yields the concatenation of the non-empty characters. -/
def currentGuessChars (row : List TileData) : List Char :=
  (row.map (fun t => t.char)).filterMap id

/-!  ### Keyboard-hint aggregation (`setLetterStates` block in `handleEnter`)  -/

/-- JS object lookup `next[key]` on the association list. -/
def lookupLetter (m : List (Char × LetterState)) (k : Char) : Option LetterState :=
  (m.find? (fun p => p.1 == k)).map (fun p => p.2)

/-- JS object assignment `next[key] = v`: overwrite an existing entry in
place, otherwise append a new one. -/
def setLetter (m : List (Char × LetterState)) (k : Char) (v : LetterState) :
    List (Char × LetterState) :=
  if m.any (fun p => p.1 == k) then
    m.map (fun p => if p.1 == k then (k, v) else p)
  else m ++ [(k, v)]

/-- One iteration of the `rowTiles.forEach` upgrade loop in `handleEnter`:
CORRECT always wins; PRESENT unless already CORRECT; ABSENT only when the
letter has no entry yet (`!currentState`, and every stored state is a
truthy string). -/
def updateLetterState (m : List (Char × LetterState)) (t : Char × LetterState) :
    List (Char × LetterState) :=
  if t.2 = LetterState.CORRECT then
    setLetter m t.1 LetterState.CORRECT
  else if t.2 = LetterState.PRESENT ∧ lookupLetter m t.1 ≠ some LetterState.CORRECT then
    setLetter m t.1 LetterState.PRESENT
  else if t.2 = LetterState.ABSENT ∧ lookupLetter m t.1 = none then
    setLetter m t.1 LetterState.ABSENT
  else m

/-- The whole `setLetterStates` update for one evaluated row. -/
def updateLetterStates (m : List (Char × LetterState))
    (tiles : List (Char × LetterState)) : List (Char × LetterState) :=
  tiles.foldl updateLetterState m

/-!  ### Intent handlers  -/

/-- `handleKeyInput` from `src/App.tsx`: type one character into the active
row.  Ignored unless PLAYING and the cursor is inside the row. -/
def handleKeyInput (s : GameState) (key : Char) : GameState :=
  if s.gameStatus ≠ GameStatus.PLAYING then s
  else if s.currentCol ≥ WORD_LENGTH then s
  else
    { s with
      grid := s.grid.set s.currentRow
        ((s.grid.getD s.currentRow []).set s.currentCol
          { char := some key, state := LetterState.INITIAL })
      currentCol := s.currentCol + 1 }

/-- `handleDelete` from `src/App.tsx`: clear the tile left of the cursor.
Ignored unless PLAYING and `currentCol > 0`. -/
def handleDelete (s : GameState) : GameState :=
  if s.gameStatus ≠ GameStatus.PLAYING then s
  else if s.currentCol ≤ 0 then s
  else
    { s with
      grid := s.grid.set s.currentRow
        ((s.grid.getD s.currentRow []).set (s.currentCol - 1)
          { char := none, state := LetterState.INITIAL })
      currentCol := s.currentCol - 1 }

/-- The synchronous prefix of `handleEnter`, up to the `await` on
`validateWordExistence`: either the intent is ignored, or the row is too
short, or the built guess is handed to the provider for validation. -/
inductive SubmitAction where
  | ignore
  | tooShort
  | validateGuess (guess : List Char)
deriving DecidableEq, Repr

/-- Classify what `handleEnter` does before any provider call. -/
def submitAction (s : GameState) : SubmitAction :=
  if s.gameStatus ≠ GameStatus.PLAYING then SubmitAction.ignore
  else if s.currentCol < WORD_LENGTH then SubmitAction.tooShort
  else SubmitAction.validateGuess (currentGuessChars (s.grid.getD s.currentRow []))

/-- The continuation of `handleEnter` after `validateWordExistence(guess)`
resolves with `isValid`.  The state `s` carries `gameStatus = VALIDATING`
set just before the await; `guess` is the closure value built from the
active row.  On a valid guess the row is evaluated (the evaluated tiles
keep the typed characters), the grid and keyboard hints are updated, and
the win / loss / advance branch is taken. -/
def submitStep2 (s : GameState) (guess : List Char) (isValid : Bool) :
    GameState × Option Signal :=
  if !isValid then
    ({ s with gameStatus := GameStatus.PLAYING }, some Signal.invalidWord)
  else
    let rowResult := evaluate guess s.secretWord
    let rowTiles := rowResult.map (fun p => TileData.mk (some p.1) p.2)
    let newGrid := s.grid.set s.currentRow rowTiles
    let newLS := updateLetterStates s.letterStates rowResult
    if guess = s.secretWord then
      ({ s with
          grid := newGrid, letterStates := newLS,
          gameStatus := GameStatus.WON }, some Signal.winMsg)
    else if s.currentRow = MAX_GUESSES - 1 then
      ({ s with
          grid := newGrid, letterStates := newLS,
          gameStatus := GameStatus.LOST }, some (Signal.revealSecret s.secretWord))
    else
      ({ s with
          grid := newGrid, letterStates := newLS,
          gameStatus := GameStatus.PLAYING,
          currentRow := s.currentRow + 1, currentCol := 0 }, none)

/-- The whole `handleEnter`, parameterised by the provider's validation
verdict (the sole suspension point). -/
def handleEnter (s : GameState) (isValid : Bool) : GameState × Option Signal :=
  match submitAction s with
  | SubmitAction.ignore => (s, none)
  | SubmitAction.tooShort => (s, some Signal.tooShort)
  | SubmitAction.validateGuess g =>
    submitStep2 { s with gameStatus := GameStatus.VALIDATING } g isValid

/-!  ### Initialisation and restart (`initGame`)  -/

/-- The synchronous part of `initGame`: reset cursor, hints and grid and
enter LOADING.  `secretWord` keeps its previous value until the fetch
resolves, exactly as in the source. -/
def initGameReset (s : GameState) : GameState :=
  { s with
      grid := emptyGrid, currentRow := 0, currentCol := 0,
      gameStatus := GameStatus.LOADING, letterStates := [] }

/-- The continuation of `initGame` once `fetchRandomWord` resolves with a
word: store it and enter PLAYING. -/
def initGameResolve (s : GameState) (word : List Char) : GameState :=
  { s with secretWord := word, gameStatus := GameStatus.PLAYING }

/-- Modelled from the spec: `fetchRandomWord` lives in
`src/services/gemini.ts`, which is not part of the sources.  Per §4.1 the
provider returns an uppercase word of exactly the requested length, and per
§7 a provider that cannot produce one never resolves, leaving the game in
LOADING.  `none` models a fetch that never resolves; `some w` a fetch
resolving with `w`. -/
def initGameStep (s : GameState) (fetchResult : Option (List Char)) : GameState :=
  match fetchResult with
  | none => initGameReset s
  | some w => initGameResolve (initGameReset s) w

/-- Modelled from the spec: the §4.1 contract on a word the provider
actually returns — uppercase letters, exactly the requested length. -/
def fetchedWordOK (w : List Char) : Prop :=
  w.length = WORD_LENGTH ∧ ∀ c ∈ w, 'A' ≤ c ∧ c ≤ 'Z'

instance : DecidablePred fetchedWordOK := fun w => by
  unfold fetchedWordOK
  infer_instance

/-!  ### Physical keyboard dispatch (`handleKeyDown`)  -/

/-- The fields of the browser `KeyboardEvent` that `handleKeyDown` reads. -/
structure KeyEvent where
  key : String
  ctrlKey : Bool := false
  metaKey : Bool := false
  altKey : Bool := false

/-- A fragment of the browser's `String.prototype.toUpperCase` (Unicode
default case conversion, a host function whose full table lives outside
this repository): it maps the Turkish dotless i U+0131 to I as Unicode
prescribes, and agrees with ASCII uppercasing on every other character
used in this development. -/
def jsUpper (k : String) : String :=
  String.mk (k.toList.map (fun c => if c = 'ı' then 'I' else c.toUpper))

/-- The regex test `/^[A-Z]$/.test(key)`. -/
def isLetterKey (k : String) : Bool :=
  match k.toList with
  | [c] => decide ('A' ≤ c ∧ c ≤ 'Z')
  | _ => false

/-- The action a key event is routed to. -/
inductive KeyAction where
  | restart
  | enter
  | delete
  | typeChar (c : Char)
  | ignore
deriving DecidableEq, Repr

/-- The dispatch logic of `handleKeyDown` in `src/App.tsx`: modifier keys
are ignored; `e.key` is uppercased by the host `toUpperCase`, passed in as
the parameter `up` since its Unicode table is not repository code; ENTER
restarts when the game is over and submits otherwise; BACKSPACE deletes; a
single A–Z letter is typed; everything else falls through with no
effect. -/
def classifyKeyDown (up : String → String) (s : GameState) (e : KeyEvent) :
    KeyAction :=
  if e.ctrlKey || e.metaKey || e.altKey then KeyAction.ignore
  else
    let key := up e.key
    if key = "ENTER" then
      if s.gameStatus = GameStatus.WON ∨ s.gameStatus = GameStatus.LOST then
        KeyAction.restart
      else KeyAction.enter
    else if key = "BACKSPACE" then KeyAction.delete
    else if isLetterKey key then
      match key.toList with
      | [c] => KeyAction.typeChar c
      | _ => KeyAction.ignore
    else KeyAction.ignore

/-- Apply a dispatched key action.  `restart` performs the synchronous part
of `initGame`; `enter` needs the provider verdict. -/
def applyKeyAction (s : GameState) (a : KeyAction) (isValid : Bool) :
    GameState × Option Signal :=
  match a with
  | KeyAction.ignore => (s, none)
  | KeyAction.restart => (initGameReset s, none)
  | KeyAction.enter => handleEnter s isValid
  | KeyAction.delete => (handleDelete s, none)
  | KeyAction.typeChar c => (handleKeyInput s c, none)

/-- `handleKeyDown` from `src/App.tsx` as dispatch plus action, for a host
uppercase function `up`. -/
def handleKeyDown (up : String → String) (s : GameState) (e : KeyEvent)
    (isValid : Bool) : GameState × Option Signal :=
  applyKeyAction s (classifyKeyDown up s e) isValid

/-- The tile at grid position `(i, j)`. -/
def tileAt (s : GameState) (i j : Nat) : TileData :=
  (s.grid.getD i []).getD j { char := none, state := LetterState.INITIAL }

/-!  ## Counting lemmas for the two-pass evaluation  -/

theorem countSome_cons (l : Char) (x : Option Char) (xs : List (Option Char)) :
    countSome l (x :: xs) = (if x = some l then 1 else 0) + countSome l xs := by
  simp only [countSome, List.filter_cons]
  by_cases h : x = some l <;> simp [h, Nat.add_comm]

theorem countChar_cons (l c : Char) (s : List Char) :
    countChar l (c :: s) = (if c = l then 1 else 0) + countChar l s := by
  simp only [countChar, List.filter_cons]
  by_cases h : c = l <;> simp [h, Nat.add_comm]

theorem countCorrect_cons (l c : Char) (st : LetterState) (ts : List (Char × LetterState)) :
    countCorrect l ((c, st) :: ts) =
      (if c = l ∧ st = LetterState.CORRECT then 1 else 0) + countCorrect l ts := by
  simp only [countCorrect, List.filter_cons]
  by_cases h : c = l ∧ st = LetterState.CORRECT <;> simp [h, Nat.add_comm]

theorem countHit_cons (l c : Char) (st : LetterState) (ts : List (Char × LetterState)) :
    countHit l ((c, st) :: ts) =
      (if c = l ∧ (st = LetterState.PRESENT ∨ st = LetterState.CORRECT) then 1 else 0) +
        countHit l ts := by
  simp only [countHit, List.filter_cons]
  by_cases h : c = l ∧ (st = LetterState.PRESENT ∨ st = LetterState.CORRECT) <;>
    simp [h, Nat.add_comm]

/-- Clearing the first occurrence of `c` removes exactly one unconsumed `c`
and leaves the count of every other letter unchanged. -/
theorem clearFirst_countSome (c : Char) :
    ∀ (rem rem' : List (Option Char)), clearFirst rem c = some rem' →
      ∀ l : Char, countSome l rem' + (if c = l then 1 else 0) = countSome l rem := by
  intro rem
  induction rem with
  | nil => intro rem' h; simp [clearFirst] at h
  | cons x xs ih =>
    intro rem' h l
    by_cases hx : x = some c
    · rw [clearFirst, if_pos hx] at h
      obtain rfl : (none : Option Char) :: xs = rem' := by
        simpa using h
      subst hx
      by_cases hcl : c = l <;> simp [countSome_cons, hcl] <;> omega
    · rw [clearFirst, if_neg hx] at h
      obtain ⟨ys, hys, rfl⟩ := Option.map_eq_some'.mp h
      have := ih ys hys l
      rw [countSome_cons, countSome_cons]
      omega

/-- Pass 2 marks at most one PRESENT per unconsumed occurrence: the number
of PRESENT-or-CORRECT tiles for `l` is bounded by the CORRECT tiles entering
pass 2 plus the unconsumed occurrences of `l` in the scratch secret. -/
theorem pass2_countHit (l : Char) :
    ∀ (ts : List (Char × LetterState)) (rem : List (Option Char)),
      countHit l (pass2 ts rem) ≤ countCorrect l ts + countSome l rem := by
  intro ts
  induction ts with
  | nil => intro rem; simp [pass2, countHit, countCorrect]
  | cons t ts ih =>
    intro rem
    obtain ⟨c, st⟩ := t
    by_cases hst : st = LetterState.CORRECT
    · subst hst
      rw [pass2, if_pos rfl, countHit_cons, countCorrect_cons]
      have := ih rem
      by_cases hcl : c = l <;> simp [hcl] <;> omega
    · rw [pass2, if_neg hst]
      cases hcf : clearFirst rem c with
      | some rem2 =>
        rw [countHit_cons, countCorrect_cons]
        have h1 := ih rem2
        have h2 := clearFirst_countSome c rem rem2 hcf l
        by_cases hcl : c = l <;> simp [hcl, hst] at h2 ⊢ <;> omega
      | none =>
        rw [countHit_cons, countCorrect_cons]
        have := ih rem
        by_cases hcl : c = l <;> simp [hcl, hst] <;> omega

/-- Pass 1 accounting: CORRECT tiles for `l` plus the occurrences of `l`
left in the scratch secret never exceed the occurrences of `l` in the
secret. -/
theorem pass1_count (l : Char) :
    ∀ (g s : List Char),
      countCorrect l (pass1 g s).1 + countSome l (pass1 g s).2 ≤ countChar l s := by
  intro g
  induction g with
  | nil =>
    intro s
    simp [pass1, countCorrect, countSome]
  | cons gc gs ih =>
    intro s
    cases s with
    | nil => simp [pass1, countCorrect, countSome]
    | cons sc ss =>
      rw [pass1]
      have := ih ss
      by_cases hg : gc = sc
      · rw [if_pos hg]
        subst hg
        rw [countCorrect_cons, countSome_cons, countChar_cons]
        by_cases hcl : gc = l <;> simp [hcl] <;> omega
      · rw [if_neg hg]
        rw [countCorrect_cons, countSome_cons, countChar_cons]
        by_cases hcl : sc = l <;> simp [hcl] <;> omega

/-- C1: For every secret word and guess (in particular those of equal
length), the two-pass evaluation marks at most `countChar l secret`
positions PRESENT-or-CORRECT for each letter `l` — duplicate guessed
letters are never credited beyond the letter's actual occurrences in the
secret. -/
theorem evaluate_no_overcount (guess secret : List Char) (l : Char) :
    countHit l (evaluate guess secret) ≤ countChar l secret := by
  unfold evaluate
  exact le_trans (pass2_countHit l (pass1 guess secret).1 (pass1 guess secret).2)
    (pass1_count l guess secret)

/-- C3: evaluating guess "LLAMA" against secret "ALLOY" yields
PRESENT, CORRECT, PRESENT, ABSENT, ABSENT. -/
theorem evaluate_llama_alloy :
    evaluate ("LLAMA".toList) ("ALLOY".toList) =
      [('L', LetterState.PRESENT), ('L', LetterState.CORRECT),
       ('A', LetterState.PRESENT), ('M', LetterState.ABSENT),
       ('A', LetterState.ABSENT)] := by
  rfl

/-!  ## Evaluating the secret against itself  -/

/-- Pass 1 on a guess equal to the secret marks every position CORRECT and
consumes the whole secret. -/
theorem pass1_self (s : List Char) :
    pass1 s s = (s.map (fun c => (c, LetterState.CORRECT)),
      s.map (fun _ => (none : Option Char))) := by
  induction s with
  | nil => rfl
  | cons c cs ih => simp [pass1, ih]

/-- Pass 2 leaves a row of CORRECT tiles untouched. -/
theorem pass2_map_correct (s : List Char) (rem : List (Option Char)) :
    pass2 (s.map (fun c => (c, LetterState.CORRECT))) rem =
      s.map (fun c => (c, LetterState.CORRECT)) := by
  induction s generalizing rem with
  | nil => rfl
  | cons c cs ih => simp [pass2, ih]

/-- Evaluating the secret word against itself marks every tile CORRECT. -/
theorem evaluate_self (s : List Char) :
    evaluate s s = s.map (fun c => (c, LetterState.CORRECT)) := by
  unfold evaluate
  rw [pass1_self]
  exact pass2_map_correct s _

/-!  ## List indexing helpers  -/

theorem list_getD_set_self {α : Type} (l : List α) (i : Nat) (a d : α)
    (h : i < l.length) : (l.set i a).getD i d = a := by
  induction l generalizing i with
  | nil => simp at h
  | cons x xs ih =>
    cases i with
    | zero => rfl
    | succ n =>
      simp only [List.set, List.getD_cons_succ]
      exact ih n (by simpa using h)

theorem list_getD_set_ne {α : Type} (l : List α) (i j : Nat) (a d : α)
    (h : i ≠ j) : (l.set i a).getD j d = l.getD j d := by
  induction l generalizing i j with
  | nil => rfl
  | cons x xs ih =>
    cases i with
    | zero =>
      cases j with
      | zero => exact absurd rfl h
      | succ m => rfl
    | succ n =>
      cases j with
      | zero => rfl
      | succ m =>
        simp only [List.set, List.getD_cons_succ]
        exact ih n m (fun hnm => h (by omega))

/-!  ## C2: a validated guess equal to the secret wins  -/

/-- C2: submitting a full row whose characters equal the secret word, with
the provider validating it, makes every tile of the submitted row CORRECT
and the game status WON (with the win signal emitted). -/
theorem handleEnter_equal_secret_wins (s : GameState)
    (hp : s.gameStatus = GameStatus.PLAYING)
    (hc : ¬ s.currentCol < WORD_LENGTH)
    (hr : s.currentRow < s.grid.length)
    (hg : currentGuessChars (s.grid.getD s.currentRow []) = s.secretWord) :
    (handleEnter s true).1.gameStatus = GameStatus.WON ∧
    (handleEnter s true).2 = some Signal.winMsg ∧
    ∀ t ∈ (handleEnter s true).1.grid.getD s.currentRow [],
      t.state = LetterState.CORRECT := by
  have hmatch : handleEnter s true =
      submitStep2 { s with gameStatus := GameStatus.VALIDATING }
        (currentGuessChars (s.grid.getD s.currentRow [])) true := by
    unfold handleEnter submitAction
    rw [if_neg (by simp [hp]), if_neg hc]
  have hstep : submitStep2 { s with gameStatus := GameStatus.VALIDATING }
      s.secretWord true =
      ({ s with
          grid := s.grid.set s.currentRow
            (s.secretWord.map (fun c => TileData.mk (some c) LetterState.CORRECT)),
          letterStates := updateLetterStates s.letterStates
            (s.secretWord.map (fun c => (c, LetterState.CORRECT))),
          gameStatus := GameStatus.WON }, some Signal.winMsg) := by
    unfold submitStep2
    simp [evaluate_self, List.map_map, Function.comp_def]
  rw [hmatch, hg, hstep]
  refine ⟨rfl, rfl, ?_⟩
  intro t ht
  simp only at ht
  rw [list_getD_set_self _ _ _ _ hr] at ht
  simp only [List.mem_map] at ht
  obtain ⟨c, _, rfl⟩ := ht
  rfl

/-- A concrete state: secret CRANE, row 0 fully typed with CRANE. -/
def craneState : GameState :=
  { secretWord := "CRANE".toList,
    grid := emptyGrid.set 0
      ("CRANE".toList.map (fun c => TileData.mk (some c) LetterState.INITIAL)),
    currentRow := 0, currentCol := 5,
    gameStatus := GameStatus.PLAYING, letterStates := [] }

/-- Witness for C2 at the concrete state `craneState`. -/
theorem handleEnter_equal_secret_wins_witness :
    (craneState.gameStatus = GameStatus.PLAYING ∧
      ¬ craneState.currentCol < WORD_LENGTH ∧
      craneState.currentRow < craneState.grid.length ∧
      currentGuessChars (craneState.grid.getD craneState.currentRow []) =
        craneState.secretWord) ∧
    ((handleEnter craneState true).1.gameStatus = GameStatus.WON ∧
      (handleEnter craneState true).2 = some Signal.winMsg ∧
      ∀ t ∈ (handleEnter craneState true).1.grid.getD craneState.currentRow [],
        t.state = LetterState.CORRECT) :=
  ⟨⟨by decide, by decide, by decide, by decide⟩,
    handleEnter_equal_secret_wins craneState (by decide) (by decide) (by decide)
      (by decide)⟩

/-!  ## C6: keyboard hints never regress  -/

/-- Informativeness rank INITIAL < ABSENT < PRESENT < CORRECT, with a
missing entry ranked like INITIAL. -/
def hintRank : Option LetterState → Nat
  | none => 0
  | some LetterState.INITIAL => 0
  | some LetterState.ABSENT => 1
  | some LetterState.PRESENT => 2
  | some LetterState.CORRECT => 3

theorem hintRank_le_three (x : Option LetterState) : hintRank x ≤ 3 := by
  match x with
  | none => decide
  | some LetterState.INITIAL => decide
  | some LetterState.ABSENT => decide
  | some LetterState.PRESENT => decide
  | some LetterState.CORRECT => decide

theorem hintRank_le_two_of_ne_correct (x : Option LetterState)
    (h : x ≠ some LetterState.CORRECT) : hintRank x ≤ 2 := by
  match x with
  | none => decide
  | some LetterState.INITIAL => decide
  | some LetterState.ABSENT => decide
  | some LetterState.PRESENT => decide
  | some LetterState.CORRECT => exact absurd rfl h

theorem eq_correct_of_three_le (x : Option LetterState)
    (h : 3 ≤ hintRank x) : x = some LetterState.CORRECT := by
  match x with
  | none => exact absurd h (by decide)
  | some LetterState.INITIAL => exact absurd h (by decide)
  | some LetterState.ABSENT => exact absurd h (by decide)
  | some LetterState.PRESENT => exact absurd h (by decide)
  | some LetterState.CORRECT => rfl

theorem lookupLetter_overwrite (m : List (Char × LetterState)) (k : Char)
    (v : LetterState) (h : m.any (fun p => p.1 == k) = true) :
    lookupLetter (m.map (fun p => if p.1 == k then (k, v) else p)) k = some v := by
  induction m with
  | nil => simp at h
  | cons p ps ih =>
    by_cases hp : p.1 == k
    · simp [lookupLetter, List.find?, hp]
    · simp only [List.any_cons, hp, Bool.false_or] at h
      simpa [lookupLetter, List.find?, hp] using ih h

theorem lookupLetter_append_new (m : List (Char × LetterState)) (k : Char)
    (v : LetterState) :
    lookupLetter (m ++ [(k, v)]) k =
      (lookupLetter m k).orElse (fun _ => some v) := by
  induction m with
  | nil => simp [lookupLetter, List.find?]
  | cons p ps ih =>
    by_cases hp : p.1 == k
    · simp [lookupLetter, List.find?, hp]
    · simpa [lookupLetter, List.find?, hp] using ih

/-- JS assignment then lookup: the assigned value is read back. -/
theorem lookupLetter_setLetter_self (m : List (Char × LetterState)) (k : Char)
    (v : LetterState) : lookupLetter (setLetter m k v) k = some v := by
  unfold setLetter
  by_cases h : m.any (fun p => p.1 == k) = true
  · rw [if_pos h]
    exact lookupLetter_overwrite m k v h
  · rw [if_neg h]
    rw [lookupLetter_append_new]
    have hnone : lookupLetter m k = none := by
      unfold lookupLetter
      rw [List.find?_eq_none.mpr]
      · rfl
      · intro p hmem hbeq
        exact h (List.any_eq_true.mpr ⟨p, hmem, hbeq⟩)
    rw [hnone]
    rfl

/-- Assigning one key leaves every other key's lookup unchanged. -/
theorem lookupLetter_setLetter_other (m : List (Char × LetterState)) (k l : Char)
    (v : LetterState) (hne : l ≠ k) :
    lookupLetter (setLetter m k v) l = lookupLetter m l := by
  unfold setLetter
  by_cases h : m.any (fun p => p.1 == k) = true
  · rw [if_pos h]
    clear h
    induction m with
    | nil => rfl
    | cons p ps ih =>
      by_cases hp : p.1 == k
      · have hkl : ((k, v).1 == l) = false := by
          simp only [beq_eq_false_iff_ne]
          exact fun hkl => hne hkl.symm
        have hpl : (p.1 == l) = false := by
          have hpk : p.1 = k := beq_iff_eq.mp hp
          simp only [beq_eq_false_iff_ne, hpk]
          exact fun hkl => hne hkl.symm
        simpa [lookupLetter, List.find?, hp, hkl, hpl] using ih
      · by_cases hpl : p.1 == l
        · simp [lookupLetter, List.find?, hp, hpl]
        · simpa [lookupLetter, List.find?, hp, hpl] using ih
  · rw [if_neg h]
    clear h
    induction m with
    | nil =>
      simp [lookupLetter, List.find?, beq_eq_false_iff_ne.mpr
        (fun hkl : k = l => hne hkl.symm)]
    | cons p ps ih =>
      by_cases hpl : p.1 == l
      · simp [lookupLetter, List.find?, hpl]
      · simpa [lookupLetter, List.find?, hpl] using ih

/-- One tile of the upgrade loop never lowers a letter's hint rank. -/
theorem updateLetterState_mono (m : List (Char × LetterState))
    (t : Char × LetterState) (l : Char) :
    hintRank (lookupLetter m l) ≤ hintRank (lookupLetter (updateLetterState m t) l) := by
  unfold updateLetterState
  split_ifs with h1 h2 h3
  · by_cases hl : l = t.1
    · subst hl
      rw [lookupLetter_setLetter_self]
      exact hintRank_le_three _
    · rw [lookupLetter_setLetter_other m t.1 l _ hl]
  · by_cases hl : l = t.1
    · subst hl
      rw [lookupLetter_setLetter_self]
      exact hintRank_le_two_of_ne_correct _ h2.2
    · rw [lookupLetter_setLetter_other m t.1 l _ hl]
  · by_cases hl : l = t.1
    · subst hl
      rw [lookupLetter_setLetter_self, h3.2]
      decide
    · rw [lookupLetter_setLetter_other m t.1 l _ hl]
  · exact le_refl _

/-- A whole evaluated row never lowers a letter's hint rank. -/
theorem updateLetterStates_mono (tiles : List (Char × LetterState)) :
    ∀ (m : List (Char × LetterState)) (l : Char),
      hintRank (lookupLetter m l) ≤
        hintRank (lookupLetter (updateLetterStates m tiles) l) := by
  induction tiles with
  | nil => intro m l; exact le_refl _
  | cons t ts ih =>
    intro m l
    exact le_trans (updateLetterState_mono m t l) (ih (updateLetterState m t) l)

/-- C6: over any sequence of evaluated rows, every letter's keyboard hint is
monotonically non-decreasing in the order INITIAL < ABSENT < PRESENT <
CORRECT; in particular a letter once CORRECT stays CORRECT (and, since
PRESENT ranks above ABSENT, a PRESENT letter is never set back to
ABSENT). -/
theorem letterStates_monotone (rows : List (List (Char × LetterState)))
    (m : List (Char × LetterState)) (l : Char) :
    hintRank (lookupLetter m l) ≤
      hintRank (lookupLetter (rows.foldl updateLetterStates m) l) ∧
    (lookupLetter m l = some LetterState.CORRECT →
      lookupLetter (rows.foldl updateLetterStates m) l = some LetterState.CORRECT) := by
  have hmono : ∀ (rs : List (List (Char × LetterState)))
      (m0 : List (Char × LetterState)),
      hintRank (lookupLetter m0 l) ≤
        hintRank (lookupLetter (rs.foldl updateLetterStates m0) l) := by
    intro rs
    induction rs with
    | nil => intro m0; exact le_refl _
    | cons r rs ih =>
      intro m0
      exact le_trans (updateLetterStates_mono r m0 l) (ih (updateLetterStates m0 r))
  refine ⟨hmono rows m, ?_⟩
  intro hc
  apply eq_correct_of_three_le
  have := hmono rows m
  rw [hc] at this
  exact this

/-- Witness for C6 at a concrete map and row sequence. -/
theorem letterStates_monotone_witness :
    hintRank (lookupLetter [('A', LetterState.PRESENT)] 'A') ≤
      hintRank (lookupLetter
        ([[('A', LetterState.ABSENT)], [('A', LetterState.CORRECT)],
          [('A', LetterState.ABSENT)]].foldl updateLetterStates
          [('A', LetterState.PRESENT)]) 'A') ∧
    (lookupLetter [('A', LetterState.PRESENT)] 'A' = some LetterState.CORRECT →
      lookupLetter
        ([[('A', LetterState.ABSENT)], [('A', LetterState.CORRECT)],
          [('A', LetterState.ABSENT)]].foldl updateLetterStates
          [('A', LetterState.PRESENT)]) 'A' = some LetterState.CORRECT) :=
  letterStates_monotone
    [[('A', LetterState.ABSENT)], [('A', LetterState.CORRECT)],
      [('A', LetterState.ABSENT)]] [('A', LetterState.PRESENT)] 'A'

/-!  ## C4: LOADING is left only with a real word  -/

/-- C4: if the word fetch resolves, the provider contract guarantees the
word is non-empty, so PLAYING is only ever entered with a non-empty secret;
if the fetch never resolves the game remains in LOADING. -/
theorem initGame_playing_only_nonempty (s : GameState) (r : Option (List Char))
    (hr : ∀ w, r = some w → fetchedWordOK w) :
    ((initGameStep s r).gameStatus = GameStatus.PLAYING →
      (initGameStep s r).secretWord ≠ []) ∧
    (r = none → (initGameStep s r).gameStatus = GameStatus.LOADING) := by
  cases r with
  | none =>
    refine ⟨?_, fun _ => rfl⟩
    intro hplay
    exact absurd hplay (by simp [initGameStep, initGameReset])
  | some w =>
    refine ⟨?_, by simp⟩
    intro _ hnil
    have hlen : w.length = WORD_LENGTH := (hr w rfl).1
    have hw : (initGameStep s (some w)).secretWord = w := rfl
    rw [hw] at hnil
    subst hnil
    simp [WORD_LENGTH] at hlen

/-- Witness for C4 at the concrete fetch result CRANE. -/
theorem initGame_playing_only_nonempty_witness :
    (∀ w, some ("CRANE".toList) = some w → fetchedWordOK w) ∧
    (((initGameStep craneState (some ("CRANE".toList))).gameStatus =
        GameStatus.PLAYING →
      (initGameStep craneState (some ("CRANE".toList))).secretWord ≠ []) ∧
    (some ("CRANE".toList) = (none : Option (List Char)) →
      (initGameStep craneState (some ("CRANE".toList))).gameStatus =
        GameStatus.LOADING)) :=
  ⟨fun w hw => Option.some_inj.mp hw ▸ (by decide : fetchedWordOK ("CRANE".toList)),
    initGame_playing_only_nonempty craneState (some ("CRANE".toList))
      (fun w hw => Option.some_inj.mp hw ▸
        (by decide : fetchedWordOK ("CRANE".toList)))⟩

/-- A PLAYING state with A and B typed into row 0. -/
def typedState : GameState :=
  { secretWord := "CRANE".toList,
    grid := emptyGrid.set 0
      [{ char := some 'A', state := LetterState.INITIAL },
       { char := some 'B', state := LetterState.INITIAL },
       { char := none, state := LetterState.INITIAL },
       { char := none, state := LetterState.INITIAL },
       { char := none, state := LetterState.INITIAL }],
    currentRow := 0, currentCol := 2,
    gameStatus := GameStatus.PLAYING, letterStates := [] }

/-!  ## C5: which key input is silently ignored

The claim as stated — every key string that is not a single A–Z letter is
silently ignored while PLAYING — is false of the program: the code
uppercases the raw key first, and the host `toUpperCase` maps the Turkish
dotless i U+0131 (a single key string that is not an A–Z letter) to I,
which then passes `/^[A-Z]$/` and is typed into the grid.  What the code
does guarantee is that a key whose *uppercased* form is neither ENTER nor
BACKSPACE nor a single A–Z letter is silently ignored.  -/

/-- C5 counterexample: the key "ı" is a single character that is not an
A–Z letter (so the claim as stated demands it be ignored while PLAYING),
yet the engine uppercases it to I and types it, changing the state. -/
theorem handleKeyDown_dotless_i_types_letter :
    isLetterKey "ı" = false ∧
    (∀ c ∈ "ı".toList, ¬ ('A' ≤ c ∧ c ≤ 'Z')) ∧
    typedState.gameStatus = GameStatus.PLAYING ∧
    handleKeyDown jsUpper typedState { key := "ı" } true ≠ (typedState, none) := by
  refine ⟨rfl, by decide, rfl, by decide⟩

/-- C5 (amended): a key event whose key, after the host uppercase
normalization, is neither ENTER nor BACKSPACE nor a single A–Z letter is
silently ignored while PLAYING: no state change and no signal (for any
host uppercase function `up`). -/
theorem handleKeyDown_malformed_ignored (up : String → String) (s : GameState)
    (e : KeyEvent) (v : Bool)
    (hp : s.gameStatus = GameStatus.PLAYING)
    (h1 : up e.key ≠ "ENTER")
    (h2 : up e.key ≠ "BACKSPACE")
    (h3 : isLetterKey (up e.key) = false) :
    handleKeyDown up s e v = (s, none) := by
  by_cases hmod : (e.ctrlKey || e.metaKey || e.altKey) = true
  · simp [handleKeyDown, classifyKeyDown, applyKeyAction, hmod]
  · simp [handleKeyDown, classifyKeyDown, applyKeyAction, hmod, h1, h2, h3]

/-- The key event for the digit key 1, with no modifiers. -/
def digitKeyEvent : KeyEvent := { key := "1" }

/-- Witness for amended C5: pressing the digit 1 in `craneState`. -/
theorem handleKeyDown_malformed_ignored_witness :
    (craneState.gameStatus = GameStatus.PLAYING ∧
      jsUpper digitKeyEvent.key ≠ "ENTER" ∧
      jsUpper digitKeyEvent.key ≠ "BACKSPACE" ∧
      isLetterKey (jsUpper digitKeyEvent.key) = false) ∧
    handleKeyDown jsUpper craneState digitKeyEvent true = (craneState, none) :=
  ⟨⟨by decide, by decide, by decide, by decide⟩,
    handleKeyDown_malformed_ignored jsUpper craneState digitKeyEvent true
      (by decide) (by decide) (by decide) (by decide)⟩

/-!  ## C7: a short submit changes nothing and skips validation  -/

/-- C7: submitting while PLAYING with `currentCol < WORD_LENGTH` classifies
as a too-short submit (so the provider validation step is never reached),
leaves the state unchanged for every possible provider verdict, and emits
only the too-short signal. -/
theorem handleEnter_tooShort (s : GameState)
    (hp : s.gameStatus = GameStatus.PLAYING)
    (hc : s.currentCol < WORD_LENGTH) :
    submitAction s = SubmitAction.tooShort ∧
    ∀ v : Bool, handleEnter s v = (s, some Signal.tooShort) := by
  have ha : submitAction s = SubmitAction.tooShort := by
    unfold submitAction
    rw [if_neg (by simp [hp]), if_pos hc]
  refine ⟨ha, fun v => ?_⟩
  unfold handleEnter
  rw [ha]

/-- A PLAYING state with only three letters typed. -/
def shortState : GameState :=
  { secretWord := "CRANE".toList, grid := emptyGrid, currentRow := 0,
    currentCol := 3, gameStatus := GameStatus.PLAYING, letterStates := [] }

/-- Witness for C7 at `shortState`. -/
theorem handleEnter_tooShort_witness :
    (shortState.gameStatus = GameStatus.PLAYING ∧
      shortState.currentCol < WORD_LENGTH) ∧
    (submitAction shortState = SubmitAction.tooShort ∧
      ∀ v : Bool, handleEnter shortState v = (shortState, some Signal.tooShort)) :=
  ⟨⟨by decide, by decide⟩, handleEnter_tooShort shortState (by decide) (by decide)⟩

/-!  ## C8: an invalid word reverts to PLAYING with everything kept  -/

/-- C8: when the provider declares the guess invalid, the resolution step
turns VALIDATING back into PLAYING, emits the invalid-word signal, and
preserves the grid, cursor and every other component of the state. -/
theorem submitStep2_invalid_reverts (s : GameState) (guess : List Char)
    (hv : s.gameStatus = GameStatus.VALIDATING) :
    (submitStep2 s guess false).1.gameStatus = GameStatus.PLAYING ∧
    (submitStep2 s guess false).2 = some Signal.invalidWord ∧
    (submitStep2 s guess false).1.grid = s.grid ∧
    (submitStep2 s guess false).1.currentRow = s.currentRow ∧
    (submitStep2 s guess false).1.currentCol = s.currentCol ∧
    (submitStep2 s guess false).1.secretWord = s.secretWord ∧
    (submitStep2 s guess false).1.letterStates = s.letterStates :=
  ⟨rfl, rfl, rfl, rfl, rfl, rfl, rfl⟩

/-- `craneState` suspended on validation. -/
def validatingState : GameState :=
  { craneState with gameStatus := GameStatus.VALIDATING }

/-- Witness for C8 at `validatingState` with guess CRANE. -/
theorem submitStep2_invalid_reverts_witness :
    validatingState.gameStatus = GameStatus.VALIDATING ∧
    ((submitStep2 validatingState ("CRANE".toList) false).1.gameStatus =
        GameStatus.PLAYING ∧
      (submitStep2 validatingState ("CRANE".toList) false).2 =
        some Signal.invalidWord ∧
      (submitStep2 validatingState ("CRANE".toList) false).1.grid =
        validatingState.grid ∧
      (submitStep2 validatingState ("CRANE".toList) false).1.currentRow =
        validatingState.currentRow ∧
      (submitStep2 validatingState ("CRANE".toList) false).1.currentCol =
        validatingState.currentCol ∧
      (submitStep2 validatingState ("CRANE".toList) false).1.secretWord =
        validatingState.secretWord ∧
      (submitStep2 validatingState ("CRANE".toList) false).1.letterStates =
        validatingState.letterStates) :=
  ⟨by decide, submitStep2_invalid_reverts validatingState ("CRANE".toList)
    (by decide)⟩

/-!  ## C9: delete followed by typing restores the tile  -/

/-- C9: from a PLAYING state with at least one typed letter, `delete()`
followed immediately by `typeChar(c)` yields exactly the original state
with the tile left of the cursor replaced by `{char := c, state :=
INITIAL}`: `currentCol` is restored and no residual state remains
anywhere. -/
theorem delete_then_type_restores (s : GameState) (c : Char)
    (hp : s.gameStatus = GameStatus.PLAYING)
    (h0 : 0 < s.currentCol)
    (h5 : s.currentCol ≤ WORD_LENGTH)
    (hr : s.currentRow < s.grid.length)
    (hl : (s.grid.getD s.currentRow []).length = WORD_LENGTH) :
    handleKeyInput (handleDelete s) c =
      { s with
          grid :=
            s.grid.set s.currentRow
              ((s.grid.getD s.currentRow []).set (s.currentCol - 1)
                { char := some c, state := LetterState.INITIAL }) } ∧
    (handleKeyInput (handleDelete s) c).currentCol = s.currentCol ∧
    tileAt (handleKeyInput (handleDelete s) c) s.currentRow (s.currentCol - 1) =
      { char := some c, state := LetterState.INITIAL } := by
  have hW : 0 < WORD_LENGTH := by decide
  have hd : handleDelete s =
      { s with
          grid := s.grid.set s.currentRow
            ((s.grid.getD s.currentRow []).set (s.currentCol - 1)
              { char := none, state := LetterState.INITIAL }),
          currentCol := s.currentCol - 1 } := by
    unfold handleDelete
    rw [if_neg (by simp [hp]), if_neg (by omega)]
  have hmain : handleKeyInput (handleDelete s) c =
      { s with
          grid :=
            s.grid.set s.currentRow
              ((s.grid.getD s.currentRow []).set (s.currentCol - 1)
                { char := some c, state := LetterState.INITIAL }) } := by
    rw [hd]
    unfold handleKeyInput
    rw [if_neg (by simp [hp]), if_neg (by simp only [ge_iff_le, Nat.not_le]; omega)]
    simp only [GameState.mk.injEq, and_true, true_and]
    refine ⟨?_, by omega⟩
    rw [list_getD_set_self _ _ _ _ hr, List.set_set, List.set_set]
  refine ⟨hmain, by rw [hmain], ?_⟩
  rw [hmain]
  unfold tileAt
  simp only
  rw [list_getD_set_self _ _ _ _ hr, list_getD_set_self]
  omega

/-- Witness for C9: delete the B in `typedState`, then type Z. -/
theorem delete_then_type_restores_witness :
    (typedState.gameStatus = GameStatus.PLAYING ∧
      0 < typedState.currentCol ∧
      typedState.currentCol ≤ WORD_LENGTH ∧
      typedState.currentRow < typedState.grid.length ∧
      (typedState.grid.getD typedState.currentRow []).length = WORD_LENGTH) ∧
    (handleKeyInput (handleDelete typedState) 'Z' =
      { typedState with
          grid :=
            typedState.grid.set typedState.currentRow
              ((typedState.grid.getD typedState.currentRow []).set
                (typedState.currentCol - 1)
                { char := some 'Z', state := LetterState.INITIAL }) } ∧
    (handleKeyInput (handleDelete typedState) 'Z').currentCol =
      typedState.currentCol ∧
    tileAt (handleKeyInput (handleDelete typedState) 'Z') typedState.currentRow
        (typedState.currentCol - 1) =
      { char := some 'Z', state := LetterState.INITIAL }) :=
  ⟨⟨by decide, by decide, by decide, by decide, by decide⟩,
    delete_then_type_restores typedState 'Z' (by decide) (by decide) (by decide)
      (by decide) (by decide)⟩

/-!  ## C10: typeChar touches exactly one tile  -/

/-- C10: while PLAYING with room in the row, `typeChar(c)` sets the tile at
the cursor to `{char := c, state := INITIAL}`, increments `currentCol`, and
changes nothing else: secret word, status, row, keyboard hints, and every
other tile are untouched. -/
theorem handleKeyInput_frame (s : GameState) (c : Char)
    (hp : s.gameStatus = GameStatus.PLAYING)
    (hc : s.currentCol < WORD_LENGTH)
    (hr : s.currentRow < s.grid.length)
    (hl : (s.grid.getD s.currentRow []).length = WORD_LENGTH) :
    (handleKeyInput s c).secretWord = s.secretWord ∧
    (handleKeyInput s c).gameStatus = s.gameStatus ∧
    (handleKeyInput s c).currentRow = s.currentRow ∧
    (handleKeyInput s c).letterStates = s.letterStates ∧
    (handleKeyInput s c).currentCol = s.currentCol + 1 ∧
    tileAt (handleKeyInput s c) s.currentRow s.currentCol =
      { char := some c, state := LetterState.INITIAL } ∧
    ∀ i j, ¬(i = s.currentRow ∧ j = s.currentCol) →
      tileAt (handleKeyInput s c) i j = tileAt s i j := by
  have hki : handleKeyInput s c =
      { s with
          grid := s.grid.set s.currentRow
            ((s.grid.getD s.currentRow []).set s.currentCol
              { char := some c, state := LetterState.INITIAL }),
          currentCol := s.currentCol + 1 } := by
    unfold handleKeyInput
    rw [if_neg (by simp [hp]), if_neg (by simp only [ge_iff_le, Nat.not_le]; omega)]
  rw [hki]
  refine ⟨rfl, rfl, rfl, rfl, rfl, ?_, ?_⟩
  · unfold tileAt
    simp only
    rw [list_getD_set_self _ _ _ _ hr, list_getD_set_self]
    omega
  · intro i j hij
    unfold tileAt
    simp only
    by_cases hi : i = s.currentRow
    · subst hi
      have hj : j ≠ s.currentCol := fun hj => hij ⟨rfl, hj⟩
      rw [list_getD_set_self _ _ _ _ hr,
        list_getD_set_ne _ _ _ _ _ (fun h => hj h.symm)]
    · rw [list_getD_set_ne _ _ _ _ _ (fun h => hi h.symm)]

/-- Witness for C10: type Z into `typedState` at column 2. -/
theorem handleKeyInput_frame_witness :
    (typedState.gameStatus = GameStatus.PLAYING ∧
      typedState.currentCol < WORD_LENGTH ∧
      typedState.currentRow < typedState.grid.length ∧
      (typedState.grid.getD typedState.currentRow []).length = WORD_LENGTH) ∧
    ((handleKeyInput typedState 'Z').secretWord = typedState.secretWord ∧
    (handleKeyInput typedState 'Z').gameStatus = typedState.gameStatus ∧
    (handleKeyInput typedState 'Z').currentRow = typedState.currentRow ∧
    (handleKeyInput typedState 'Z').letterStates = typedState.letterStates ∧
    (handleKeyInput typedState 'Z').currentCol = typedState.currentCol + 1 ∧
    tileAt (handleKeyInput typedState 'Z') typedState.currentRow
        typedState.currentCol =
      { char := some 'Z', state := LetterState.INITIAL } ∧
    ∀ i j, ¬(i = typedState.currentRow ∧ j = typedState.currentCol) →
      tileAt (handleKeyInput typedState 'Z') i j = tileAt typedState i j) :=
  ⟨⟨by decide, by decide, by decide, by decide⟩,
    handleKeyInput_frame typedState 'Z' (by decide) (by decide) (by decide)
      (by decide)⟩

end Wordle
